import Mathlib

set_option maxHeartbeats 1000000

/-!
Shallow embedding of the `ObjectTracker` class (a simplified SORT
tracker: IoU-based greedy association plus a linear velocity
predictor) together with proofs of the specified properties.
Pixel coordinates, scores and IoU values are modelled as rationals;
the cosmetic random display color is modelled by an explicit color
source passed to `update` (the only non-deterministic input).
-/

/-- Axis-aligned box `[x, y, width, height]` with `(x, y)` the top-left
corner, mirroring the `bbox` tuples of the source. -/
structure BBox where
  x : ℚ
  y : ℚ
  w : ℚ
  h : ℚ
deriving DecidableEq, Repr

/-- A per-frame detection from the external detector (`DetectedObject`
in the source); `cls` stands for the source field `class`. -/
structure DetectedObject where
  bbox : BBox
  cls : String
  score : ℚ
deriving DecidableEq, Repr

/-- A live track (`TrackedObject` in the source): a detection plus id,
missing-frame counter, display color and per-frame velocity. -/
structure TrackedObject where
  bbox : BBox
  cls : String
  score : ℚ
  id : ℕ
  missingFrames : ℕ
  color : String
  velocity : ℚ × ℚ
deriving DecidableEq, Repr

/-- Tracker state: the private fields of the `ObjectTracker` class. -/
structure ObjectTracker where
  nextId : ℕ
  tracks : List TrackedObject
  maxMissingFrames : ℕ
  iouThreshold : ℚ
deriving DecidableEq, Repr

/-- `new ObjectTracker(maxMissingFrames, iouThreshold)`: id counter 1,
no live tracks. -/
def mkTracker (maxMissingFrames : ℕ) (iouThreshold : ℚ) : ObjectTracker :=
  ⟨1, [], maxMissingFrames, iouThreshold⟩

/-- `calculateIoU` from the source, including the `unionArea || 1`
guard against a zero divisor. -/
def calculateIoU (bbox1 bbox2 : BBox) : ℚ :=
  let x1 := max bbox1.x bbox2.x
  let y1 := max bbox1.y bbox2.y
  let x2 := min (bbox1.x + bbox1.w) (bbox2.x + bbox2.w)
  let y2 := min (bbox1.y + bbox1.h) (bbox2.y + bbox2.h)
  if x2 ≤ x1 ∨ y2 ≤ y1 then 0
  else
    let intersectionArea := (x2 - x1) * (y2 - y1)
    let box1Area := bbox1.w * bbox1.h
    let box2Area := bbox2.w * bbox2.h
    let unionArea := box1Area + box2Area - intersectionArea
    intersectionArea / (if unionArea = 0 then 1 else unionArea)

/-- Intersection area term of the IoU formula (meaningful when the
overlap test passes). -/
def interArea (a b : BBox) : ℚ :=
  (min (a.x + a.w) (b.x + b.w) - max a.x b.x) *
    (min (a.y + a.h) (b.y + b.h) - max a.y b.y)

/-- Union area term of the IoU formula. -/
def unionAreaOf (a b : BBox) : ℚ :=
  a.w * a.h + b.w * b.h - interArea a b

/-- The overlap test of `calculateIoU` (negation of its early-return
condition `x2 <= x1 || y2 <= y1`). -/
def overlaps (a b : BBox) : Prop :=
  max a.x b.x < min (a.x + a.w) (b.x + b.w) ∧
    max a.y b.y < min (a.y + a.h) (b.y + b.h)

instance (a b : BBox) : Decidable (overlaps a b) := by
  unfold overlaps; infer_instance

/-- Modelled from the spec: the reference IoU formula of §4.1, which
divides by the union area directly (no `|| 1` fallback guard). -/
def iouSpec (a b : BBox) : ℚ :=
  let x1 := max a.x b.x
  let y1 := max a.y b.y
  let x2 := min (a.x + a.w) (b.x + b.w)
  let y2 := min (a.y + a.h) (b.y + b.h)
  if x2 ≤ x1 ∨ y2 ≤ y1 then 0
  else ((x2 - x1) * (y2 - y1)) / (a.w * a.h + b.w * b.h - (x2 - x1) * (y2 - y1))

/-- Step 1 of `update` (prediction): advance a track's box by its
stored velocity. -/
def predictTrack (tr : TrackedObject) : TrackedObject :=
  { tr with bbox := { tr.bbox with x := tr.bbox.x + tr.velocity.1,
                                   y := tr.bbox.y + tr.velocity.2 } }

/-- The live tracks after the prediction step. -/
def ObjectTracker.predictAll (t : ObjectTracker) : List TrackedObject :=
  t.tracks.map predictTrack

/-- One entry of the `matches` array: the pair of indices and its IoU,
together with the (predicted) track and the detection those indices
denote. -/
structure MatchCand where
  trackIdx : ℕ
  detIdx : ℕ
  iou : ℚ
  track : TrackedObject
  det : DetectedObject
deriving DecidableEq, Repr

/-- Step 2 of `update`: all (track, detection) pairs whose IoU meets
the threshold, generated track-major then detection-minor. -/
def ObjectTracker.candidateMatches (t : ObjectTracker)
    (detections : List DetectedObject) : List MatchCand :=
  t.predictAll.enum.flatMap fun p =>
    detections.enum.filterMap fun q =>
      if t.iouThreshold ≤ calculateIoU p.2.bbox q.2.bbox then
        some ⟨p.1, q.1, calculateIoU p.2.bbox q.2.bbox, p.2, q.2⟩
      else none

/-- The comparator `(a, b) => b.iou - a.iou` of the source's sort:
descending IoU. -/
def iouDescRel (a b : MatchCand) : Prop := b.iou ≤ a.iou

instance : DecidableRel iouDescRel :=
  fun a b => inferInstanceAs (Decidable (b.iou ≤ a.iou))

instance : IsTotal MatchCand iouDescRel := ⟨fun a b => le_total b.iou a.iou⟩

instance : IsTrans MatchCand iouDescRel := ⟨fun _ _ _ h1 h2 => le_trans h2 h1⟩

/-- The candidate pairs sorted by IoU descending (a stable sort, as
`Array.prototype.sort` is). -/
def ObjectTracker.sortedMatches (t : ObjectTracker)
    (detections : List DetectedObject) : List MatchCand :=
  List.insertionSort iouDescRel (t.candidateMatches detections)

/-- The greedy acceptance loop of step 3: walk the sorted candidates,
skipping any pair whose track or detection index was already consumed
by an earlier accepted pair. -/
def greedyAccept : List MatchCand → List ℕ → List ℕ → List MatchCand
  | [], _, _ => []
  | m :: rest, aT, aD =>
    if m.trackIdx ∈ aT ∨ m.detIdx ∈ aD then greedyAccept rest aT aD
    else m :: greedyAccept rest (m.trackIdx :: aT) (m.detIdx :: aD)

/-- The accepted matches of an `update` call, in acceptance order. -/
def ObjectTracker.acceptedMatches (t : ObjectTracker)
    (detections : List DetectedObject) : List MatchCand :=
  greedyAccept (t.sortedMatches detections) [] []

/-- The final contents of `assignedTrackIndices`: the track indices
consumed by accepted pairs. -/
def ObjectTracker.assignedTrackIdxs (t : ObjectTracker)
    (detections : List DetectedObject) : List ℕ :=
  (t.acceptedMatches detections).map (·.trackIdx)

/-- The final contents of `assignedDetIndices`: the detection indices
consumed by accepted pairs. -/
def ObjectTracker.assignedDetIdxs (t : ObjectTracker)
    (detections : List DetectedObject) : List ℕ :=
  (t.acceptedMatches detections).map (·.detIdx)

/-- Step 4 (`update` for a matched pair): smooth the velocity with
`alpha = 0.5` against the measured displacement, then take the
detection's box, class and score and reset the missing counter. -/
def applyMatch (m : MatchCand) : TrackedObject :=
  let prevX := m.track.bbox.x - m.track.velocity.1
  let prevY := m.track.bbox.y - m.track.velocity.2
  let measuredVx := m.det.bbox.x - prevX
  let measuredVy := m.det.bbox.y - prevY
  let alpha : ℚ := 1/2
  { m.track with
    velocity := (m.track.velocity.1 * (1 - alpha) + measuredVx * alpha,
                 m.track.velocity.2 * (1 - alpha) + measuredVy * alpha),
    bbox := m.det.bbox,
    score := m.det.score,
    cls := m.det.cls,
    missingFrames := 0 }

/-- The body of step 5 for one unmatched track: `missingFrames++`,
then keep the track only if it is still strictly below the limit. -/
def ageOnly (maxMissingFrames : ℕ) (tr : TrackedObject) : Option TrackedObject :=
  let aged := { tr with missingFrames := tr.missingFrames + 1 }
  if aged.missingFrames < maxMissingFrames then some aged else none

/-- Step 5 (occlusion logic): every unmatched predicted track has its
missing counter incremented and survives only while it stays strictly
below `maxMissingFrames`. -/
def ObjectTracker.agedTracks (t : ObjectTracker)
    (detections : List DetectedObject) : List TrackedObject :=
  t.predictAll.enum.filterMap fun p =>
    if p.1 ∈ t.assignedTrackIdxs detections then none
    else ageOnly t.maxMissingFrames p.2

/-- The detections not consumed by any accepted pair, with their
original indices. -/
def ObjectTracker.unmatchedDetections (t : ObjectTracker)
    (detections : List DetectedObject) : List (ℕ × DetectedObject) :=
  detections.enum.filter fun q => q.1 ∉ t.assignedDetIdxs detections

/-- Step 6 (track birth): the k-th unmatched detection spawns a fresh
track with id `nextId + k`, zero velocity, zero missing counter and a
color drawn from the (random) color source. -/
def ObjectTracker.newTracks (t : ObjectTracker)
    (detections : List DetectedObject) (colors : ℕ → String) :
    List TrackedObject :=
  (t.unmatchedDetections detections).enum.map fun r =>
    { bbox := r.2.2.bbox, cls := r.2.2.cls, score := r.2.2.score,
      id := t.nextId + r.1, missingFrames := 0, color := colors r.1,
      velocity := (0, 0) }

/-- `update`: the full per-frame pipeline. Returns the new tracker
state and the returned track list (which the source also stores as the
new live set). `colors` models the stream of `getRandomColor()` values
consumed by this call. -/
def ObjectTracker.update (t : ObjectTracker)
    (detections : List DetectedObject) (colors : ℕ → String) :
    ObjectTracker × List TrackedObject :=
  let activeTracks :=
    (t.acceptedMatches detections).map applyMatch ++
      t.agedTracks detections ++ t.newTracks detections colors
  ({ t with tracks := activeTracks,
            nextId := t.nextId + (t.unmatchedDetections detections).length },
   activeTracks)

/-- `reset`: clear the live set and restart ids at 1. -/
def ObjectTracker.reset (t : ObjectTracker) : ObjectTracker :=
  { t with tracks := [], nextId := 1 }

/-- Run a sequence of `update` calls, collecting the returned track
list of every call; `colors i k` is the color drawn for the k-th spawn
of the i-th call. -/
def runOutputs (t : ObjectTracker) :
    List (List DetectedObject) → (ℕ → ℕ → String) → List (List TrackedObject)
  | [], _ => []
  | dets :: rest, colors =>
    (t.update dets (colors 0)).2 ::
      runOutputs (t.update dets (colors 0)).1 rest (fun i => colors (i + 1))

/-- k-fold `update` with an empty detection list (the color source is
irrelevant on such frames: nothing spawns). -/
def emptyIter (t : ObjectTracker) : ℕ → ObjectTracker
  | 0 => t
  | k + 1 => emptyIter (t.update [] (fun _ => "")).1 k

/-- Tracker states reachable from a fresh constructor call through any
sequence of `update` and `reset` calls. -/
inductive Reachable : ObjectTracker → Prop
  | mk (maxMissingFrames : ℕ) (iouThreshold : ℚ) :
      Reachable (mkTracker maxMissingFrames iouThreshold)
  | update (t : ObjectTracker) (detections : List DetectedObject)
      (colors : ℕ → String) : Reachable t → Reachable (t.update detections colors).1
  | reset (t : ObjectTracker) : Reachable t → Reachable t.reset

/-- The id invariant: the counter is at least 1, every live id is
positive and below the counter, and live ids are pairwise distinct. -/
def TrackerIdInv (t : ObjectTracker) : Prop :=
  1 ≤ t.nextId ∧ (∀ tr ∈ t.tracks, 0 < tr.id ∧ tr.id < t.nextId) ∧
    (t.tracks.map (·.id)).Nodup

/-- Erase the cosmetic display color of a track (the only field the
random color source influences). -/
def stripColor (tr : TrackedObject) : TrackedObject := { tr with color := "" }

/-- Erase the color of the track stored inside a candidate pair. -/
def stripCand (m : MatchCand) : MatchCand := { m with track := stripColor m.track }

/-- C1: Tracker(maxMissingStreak=2, matchThreshold=0.25) run on the
four-frame scenario: detection (10,10,20,20), then (15,10,20,20), then
two empty frames. Outputs: id 1 with velocity (0,0); id 1 with box
(15,10,20,20) and velocity (2.5,0); id 1 with missingStreak 1 and
predicted box (17.5,10,20,20); then the empty list (track dropped). -/
theorem C1_end_to_end_scenario :
    runOutputs (mkTracker 2 (1/4))
      [[⟨⟨10, 10, 20, 20⟩, "obj", 1/2⟩], [⟨⟨15, 10, 20, 20⟩, "obj", 1/2⟩], [], []]
      (fun _ _ => "") =
    [[⟨⟨10, 10, 20, 20⟩, "obj", 1/2, 1, 0, "", (0, 0)⟩],
     [⟨⟨15, 10, 20, 20⟩, "obj", 1/2, 1, 0, "", (5/2, 0)⟩],
     [⟨⟨35/2, 10, 20, 20⟩, "obj", 1/2, 1, 1, "", (5/2, 0)⟩],
     []] := by
  have h1 : (mkTracker 2 (1/4)).update [⟨⟨10, 10, 20, 20⟩, "obj", 1/2⟩]
      (fun _ => "") =
      (⟨2, [⟨⟨10, 10, 20, 20⟩, "obj", 1/2, 1, 0, "", (0, 0)⟩], 2, 1/4⟩,
       [⟨⟨10, 10, 20, 20⟩, "obj", 1/2, 1, 0, "", (0, 0)⟩]) := by
    norm_num [ObjectTracker.update, ObjectTracker.acceptedMatches,
      ObjectTracker.sortedMatches, ObjectTracker.candidateMatches,
      ObjectTracker.predictAll, ObjectTracker.agedTracks,
      ObjectTracker.newTracks, ObjectTracker.unmatchedDetections,
      ObjectTracker.assignedTrackIdxs, ObjectTracker.assignedDetIdxs,
      greedyAccept, applyMatch, predictTrack, calculateIoU, mkTracker, ageOnly,
      iouDescRel, List.insertionSort, List.orderedInsert, List.enum,
      List.enumFrom, List.flatMap, List.filterMap_cons, List.filter_cons,
      List.mem_cons, List.mem_singleton, List.not_mem_nil]
  have h2 : (ObjectTracker.mk 2 [⟨⟨10, 10, 20, 20⟩, "obj", 1/2, 1, 0, "", (0, 0)⟩]
      2 (1/4)).update [⟨⟨15, 10, 20, 20⟩, "obj", 1/2⟩] (fun _ => "") =
      (⟨2, [⟨⟨15, 10, 20, 20⟩, "obj", 1/2, 1, 0, "", (5/2, 0)⟩], 2, 1/4⟩,
       [⟨⟨15, 10, 20, 20⟩, "obj", 1/2, 1, 0, "", (5/2, 0)⟩]) := by
    norm_num [ObjectTracker.update, ObjectTracker.acceptedMatches,
      ObjectTracker.sortedMatches, ObjectTracker.candidateMatches,
      ObjectTracker.predictAll, ObjectTracker.agedTracks,
      ObjectTracker.newTracks, ObjectTracker.unmatchedDetections,
      ObjectTracker.assignedTrackIdxs, ObjectTracker.assignedDetIdxs,
      greedyAccept, applyMatch, predictTrack, calculateIoU, mkTracker, ageOnly,
      iouDescRel, List.insertionSort, List.orderedInsert, List.enum,
      List.enumFrom, List.flatMap, List.filterMap_cons, List.filter_cons,
      List.mem_cons, List.mem_singleton, List.not_mem_nil]
  have h3 : (ObjectTracker.mk 2 [⟨⟨15, 10, 20, 20⟩, "obj", 1/2, 1, 0, "", (5/2, 0)⟩]
      2 (1/4)).update [] (fun _ => "") =
      (⟨2, [⟨⟨35/2, 10, 20, 20⟩, "obj", 1/2, 1, 1, "", (5/2, 0)⟩], 2, 1/4⟩,
       [⟨⟨35/2, 10, 20, 20⟩, "obj", 1/2, 1, 1, "", (5/2, 0)⟩]) := by
    norm_num [ObjectTracker.update, ObjectTracker.acceptedMatches,
      ObjectTracker.sortedMatches, ObjectTracker.candidateMatches,
      ObjectTracker.predictAll, ObjectTracker.agedTracks,
      ObjectTracker.newTracks, ObjectTracker.unmatchedDetections,
      ObjectTracker.assignedTrackIdxs, ObjectTracker.assignedDetIdxs,
      greedyAccept, applyMatch, predictTrack, calculateIoU, mkTracker, ageOnly,
      iouDescRel, List.insertionSort, List.orderedInsert, List.enum,
      List.enumFrom, List.flatMap, List.filterMap_cons, List.filter_cons,
      List.mem_cons, List.mem_singleton, List.not_mem_nil]
  have h4 : (ObjectTracker.mk 2 [⟨⟨35/2, 10, 20, 20⟩, "obj", 1/2, 1, 1, "", (5/2, 0)⟩]
      2 (1/4)).update [] (fun _ => "") =
      (⟨2, [], 2, 1/4⟩, []) := by
    norm_num [ObjectTracker.update, ObjectTracker.acceptedMatches,
      ObjectTracker.sortedMatches, ObjectTracker.candidateMatches,
      ObjectTracker.predictAll, ObjectTracker.agedTracks,
      ObjectTracker.newTracks, ObjectTracker.unmatchedDetections,
      ObjectTracker.assignedTrackIdxs, ObjectTracker.assignedDetIdxs,
      greedyAccept, applyMatch, predictTrack, calculateIoU, mkTracker, ageOnly,
      iouDescRel, List.insertionSort, List.orderedInsert, List.enum,
      List.enumFrom, List.flatMap, List.filterMap_cons, List.filter_cons,
      List.mem_cons, List.mem_singleton, List.not_mem_nil]
  simp only [runOutputs, h1, h2, h3, h4]

theorem calculateIoU_of_not_overlaps {a b : BBox} (h : ¬ overlaps a b) :
    calculateIoU a b = 0 := by
  simp only [calculateIoU]
  rw [if_pos]
  rcases not_and_or.mp h with h1 | h1
  · exact Or.inl (not_lt.mp h1)
  · exact Or.inr (not_lt.mp h1)

theorem interArea_pos {a b : BBox} (h : overlaps a b) : 0 < interArea a b :=
  mul_pos (sub_pos.mpr h.1) (sub_pos.mpr h.2)

theorem interArea_le_left {a b : BBox} (h : overlaps a b) :
    interArea a b ≤ a.w * a.h := by
  obtain ⟨hx, hy⟩ := h
  have hax : a.x ≤ max a.x b.x := le_max_left a.x b.x
  have hax2 : min (a.x + a.w) (b.x + b.w) ≤ a.x + a.w :=
    min_le_left (a.x + a.w) (b.x + b.w)
  have hay : a.y ≤ max a.y b.y := le_max_left a.y b.y
  have hay2 : min (a.y + a.h) (b.y + b.h) ≤ a.y + a.h :=
    min_le_left (a.y + a.h) (b.y + b.h)
  have hdx : (0 : ℚ) < min (a.x + a.w) (b.x + b.w) - max a.x b.x := sub_pos.mpr hx
  have hdy : (0 : ℚ) < min (a.y + a.h) (b.y + b.h) - max a.y b.y := sub_pos.mpr hy
  unfold interArea
  exact mul_le_mul (by linarith) (by linarith) (le_of_lt hdy) (by linarith)

theorem interArea_comm (a b : BBox) : interArea a b = interArea b a := by
  unfold interArea
  rw [max_comm a.x b.x, max_comm a.y b.y, min_comm (a.x + a.w) (b.x + b.w),
    min_comm (a.y + a.h) (b.y + b.h)]

theorem overlaps_comm {a b : BBox} (h : overlaps a b) : overlaps b a := by
  obtain ⟨hx, hy⟩ := h
  constructor
  · rw [max_comm b.x a.x, min_comm (b.x + b.w) (a.x + a.w)]; exact hx
  · rw [max_comm b.y a.y, min_comm (b.y + b.h) (a.y + a.h)]; exact hy

theorem interArea_le_right {a b : BBox} (h : overlaps a b) :
    interArea a b ≤ b.w * b.h := by
  rw [interArea_comm]
  exact interArea_le_left (overlaps_comm h)

theorem unionAreaOf_pos {a b : BBox} (h : overlaps a b) : 0 < unionAreaOf a b := by
  have h1 := interArea_pos h
  have h2 := interArea_le_left h
  have h3 := interArea_le_right h
  unfold unionAreaOf
  linarith

theorem calculateIoU_of_overlaps {a b : BBox} (h : overlaps a b) :
    calculateIoU a b = interArea a b / unionAreaOf a b := by
  have hu := unionAreaOf_pos h
  simp only [calculateIoU, interArea, unionAreaOf] at hu ⊢
  rw [if_neg, if_neg (ne_of_gt hu)]
  push_neg
  exact ⟨h.1, h.2⟩

theorem calculateIoU_comm (a b : BBox) : calculateIoU a b = calculateIoU b a := by
  simp only [calculateIoU]
  rw [max_comm a.x b.x, max_comm a.y b.y, min_comm (a.x + a.w) (b.x + b.w),
    min_comm (a.y + a.h) (b.y + b.h), add_comm (a.w * a.h) (b.w * b.h)]

theorem iouSpec_eq_calculateIoU (a b : BBox) : iouSpec a b = calculateIoU a b := by
  by_cases h : overlaps a b
  · rw [calculateIoU_of_overlaps h]
    have hu := unionAreaOf_pos h
    simp only [iouSpec, interArea, unionAreaOf] at hu ⊢
    rw [if_neg]
    push_neg
    exact ⟨h.1, h.2⟩
  · rw [calculateIoU_of_not_overlaps h]
    simp only [iouSpec]
    rw [if_pos]
    rcases not_and_or.mp h with h1 | h1
    · exact Or.inl (not_lt.mp h1)
    · exact Or.inr (not_lt.mp h1)

/-- C5: calculateIoU agrees with the spec's reference formula on
well-formed boxes; identical positive boxes give 1; disjoint boxes
give 0; containment gives area(B)/area(A); IoU is symmetric; and a
degenerate (zero-width or zero-height) box gives 0 against anything,
itself included. -/
theorem C5_iou_correct :
    (∀ a b : BBox, 0 ≤ a.w → 0 ≤ a.h → 0 ≤ b.w → 0 ≤ b.h →
      calculateIoU a b = iouSpec a b) ∧
    (∀ a : BBox, 0 < a.w → 0 < a.h → calculateIoU a a = 1) ∧
    (∀ a b : BBox,
      (a.x + a.w ≤ b.x ∨ b.x + b.w ≤ a.x ∨ a.y + a.h ≤ b.y ∨ b.y + b.h ≤ a.y) →
      calculateIoU a b = 0) ∧
    (∀ a b : BBox, 0 < a.w → 0 < a.h → 0 < b.w → 0 < b.h →
      a.x ≤ b.x → a.y ≤ b.y → b.x + b.w ≤ a.x + a.w → b.y + b.h ≤ a.y + a.h →
      calculateIoU a b = (b.w * b.h) / (a.w * a.h)) ∧
    (∀ a b : BBox, calculateIoU a b = calculateIoU b a) ∧
    (∀ a b : BBox, a.w = 0 ∨ a.h = 0 ∨ b.w = 0 ∨ b.h = 0 →
      calculateIoU a b = 0) := by
  refine ⟨fun a b _ _ _ _ => (iouSpec_eq_calculateIoU a b).symm,
    fun a hw hh => ?_, fun a b h => ?_, fun a b haw hah hbw hbh h1 h2 h3 h4 => ?_,
    calculateIoU_comm, fun a b h => ?_⟩
  · have hov : overlaps a a := by
      constructor
      · rw [max_self, min_self]; linarith
      · rw [max_self, min_self]; linarith
    rw [calculateIoU_of_overlaps hov]
    have hinter : interArea a a = a.w * a.h := by
      unfold interArea
      rw [max_self, min_self, max_self, min_self]
      ring
    have hunion : unionAreaOf a a = a.w * a.h := by
      unfold unionAreaOf
      rw [hinter]; ring
    rw [hinter, hunion]
    exact div_self (ne_of_gt (mul_pos hw hh))
  · apply calculateIoU_of_not_overlaps
    intro hov
    obtain ⟨hx, hy⟩ := hov
    rcases h with h | h | h | h
    · have : min (a.x + a.w) (b.x + b.w) ≤ max a.x b.x :=
        le_trans (min_le_left _ _) (le_trans h (le_max_right a.x b.x))
      exact absurd hx (not_lt.mpr this)
    · have : min (a.x + a.w) (b.x + b.w) ≤ max a.x b.x :=
        le_trans (min_le_right _ _) (le_trans h (le_max_left a.x b.x))
      exact absurd hx (not_lt.mpr this)
    · have : min (a.y + a.h) (b.y + b.h) ≤ max a.y b.y :=
        le_trans (min_le_left _ _) (le_trans h (le_max_right a.y b.y))
      exact absurd hy (not_lt.mpr this)
    · have : min (a.y + a.h) (b.y + b.h) ≤ max a.y b.y :=
        le_trans (min_le_right _ _) (le_trans h (le_max_left a.y b.y))
      exact absurd hy (not_lt.mpr this)
  · have hmx : max a.x b.x = b.x := max_eq_right h1
    have hmy : max a.y b.y = b.y := max_eq_right h2
    have hnx : min (a.x + a.w) (b.x + b.w) = b.x + b.w := min_eq_right h3
    have hny : min (a.y + a.h) (b.y + b.h) = b.y + b.h := min_eq_right h4
    have hov : overlaps a b := by
      constructor
      · rw [hmx, hnx]; linarith
      · rw [hmy, hny]; linarith
    rw [calculateIoU_of_overlaps hov]
    have hinter : interArea a b = b.w * b.h := by
      unfold interArea
      rw [hmx, hmy, hnx, hny]; ring
    have hunion : unionAreaOf a b = a.w * a.h := by
      unfold unionAreaOf
      rw [hinter]; ring
    rw [hinter, hunion]
  · apply calculateIoU_of_not_overlaps
    intro hov
    obtain ⟨hx, hy⟩ := hov
    rcases h with h | h | h | h
    · have : min (a.x + a.w) (b.x + b.w) ≤ max a.x b.x := by
        have := min_le_left (a.x + a.w) (b.x + b.w)
        have := le_max_left a.x b.x
        linarith [h]
      exact absurd hx (not_lt.mpr this)
    · have : min (a.y + a.h) (b.y + b.h) ≤ max a.y b.y := by
        have := min_le_left (a.y + a.h) (b.y + b.h)
        have := le_max_left a.y b.y
        linarith [h]
      exact absurd hy (not_lt.mpr this)
    · have : min (a.x + a.w) (b.x + b.w) ≤ max a.x b.x := by
        have := min_le_right (a.x + a.w) (b.x + b.w)
        have := le_max_right a.x b.x
        linarith [h]
      exact absurd hx (not_lt.mpr this)
    · have : min (a.y + a.h) (b.y + b.h) ≤ max a.y b.y := by
        have := min_le_right (a.y + a.h) (b.y + b.h)
        have := le_max_right a.y b.y
        linarith [h]
      exact absurd hy (not_lt.mpr this)

/-- C5 witness: evaluating the conjuncts of the IoU theorem at the
concrete boxes (0,0,4,4), (0,0,2,2), (8,8,1,1) and a zero-width box. -/
theorem C5_iou_correct_witness :
    calculateIoU ⟨0, 0, 4, 4⟩ ⟨0, 0, 4, 4⟩ = 1 ∧
    calculateIoU ⟨0, 0, 4, 4⟩ ⟨8, 8, 1, 1⟩ = 0 ∧
    calculateIoU ⟨0, 0, 4, 4⟩ ⟨0, 0, 2, 2⟩ = (2 * 2) / (4 * 4) ∧
    calculateIoU ⟨0, 0, 4, 4⟩ ⟨1, 1, 2, 2⟩ = calculateIoU ⟨1, 1, 2, 2⟩ ⟨0, 0, 4, 4⟩ ∧
    calculateIoU ⟨0, 0, 0, 5⟩ ⟨0, 0, 0, 5⟩ = 0 ∧
    calculateIoU ⟨0, 0, 4, 4⟩ ⟨0, 0, 4, 4⟩ = iouSpec ⟨0, 0, 4, 4⟩ ⟨0, 0, 4, 4⟩ :=
  ⟨C5_iou_correct.2.1 ⟨0, 0, 4, 4⟩ (by norm_num) (by norm_num),
   C5_iou_correct.2.2.1 ⟨0, 0, 4, 4⟩ ⟨8, 8, 1, 1⟩ (by norm_num),
   C5_iou_correct.2.2.2.1 ⟨0, 0, 4, 4⟩ ⟨0, 0, 2, 2⟩ (by norm_num) (by norm_num)
     (by norm_num) (by norm_num) (by norm_num) (by norm_num) (by norm_num)
     (by norm_num),
   C5_iou_correct.2.2.2.2.1 ⟨0, 0, 4, 4⟩ ⟨1, 1, 2, 2⟩,
   C5_iou_correct.2.2.2.2.2 ⟨0, 0, 0, 5⟩ ⟨0, 0, 0, 5⟩ (Or.inl rfl),
   C5_iou_correct.1 ⟨0, 0, 4, 4⟩ ⟨0, 0, 4, 4⟩ (by norm_num) (by norm_num)
     (by norm_num) (by norm_num)⟩

/-- C10: calculateIoU is total: the guarded divisor
`unionArea || 1` is never zero, and in fact whenever the overlap test
passes the union area is strictly positive (so the result is simply
intersection/union), while a failed overlap test returns 0 — no input,
malformed boxes included, can produce a division by zero. -/
theorem C10_iou_never_divides_by_zero (a b : BBox) :
    (if unionAreaOf a b = 0 then (1 : ℚ) else unionAreaOf a b) ≠ 0 ∧
    (overlaps a b →
      0 < unionAreaOf a b ∧
        calculateIoU a b = interArea a b / unionAreaOf a b) ∧
    (¬ overlaps a b → calculateIoU a b = 0) := by
  refine ⟨?_, fun h => ⟨unionAreaOf_pos h, calculateIoU_of_overlaps h⟩,
    fun h => calculateIoU_of_not_overlaps h⟩
  by_cases hu : unionAreaOf a b = 0
  · rw [if_pos hu]; norm_num
  · rw [if_neg hu]; exact hu

/-- C10 witness: the totality theorem evaluated at two overlapping
concrete boxes. -/
theorem C10_iou_never_divides_by_zero_witness :
    (if unionAreaOf ⟨0, 0, 2, 2⟩ ⟨1, 1, 2, 2⟩ = 0 then (1 : ℚ)
      else unionAreaOf ⟨0, 0, 2, 2⟩ ⟨1, 1, 2, 2⟩) ≠ 0 ∧
    (0 < unionAreaOf ⟨0, 0, 2, 2⟩ ⟨1, 1, 2, 2⟩ ∧
      calculateIoU ⟨0, 0, 2, 2⟩ ⟨1, 1, 2, 2⟩ =
        interArea ⟨0, 0, 2, 2⟩ ⟨1, 1, 2, 2⟩ /
          unionAreaOf ⟨0, 0, 2, 2⟩ ⟨1, 1, 2, 2⟩) :=
  ⟨(C10_iou_never_divides_by_zero ⟨0, 0, 2, 2⟩ ⟨1, 1, 2, 2⟩).1,
   (C10_iou_never_divides_by_zero ⟨0, 0, 2, 2⟩ ⟨1, 1, 2, 2⟩).2.1
     (by constructor <;> norm_num [overlaps])⟩


theorem candidateMatches_nil (t : ObjectTracker) : t.candidateMatches [] = [] := by
  unfold ObjectTracker.candidateMatches
  simp [List.flatMap_eq_nil_iff]

theorem acceptedMatches_nil (t : ObjectTracker) : t.acceptedMatches [] = [] := by
  unfold ObjectTracker.acceptedMatches ObjectTracker.sortedMatches
  rw [candidateMatches_nil]
  rfl

theorem enumFrom_filterMap_snd {α β : Type} (g : α → Option β) :
    ∀ (l : List α) (n : ℕ), (l.enumFrom n).filterMap (fun p => g p.2) = l.filterMap g
  | [], _ => rfl
  | a :: l, n => by
    simp only [List.enumFrom, List.filterMap_cons]
    cases g a <;> simp [enumFrom_filterMap_snd g l (n + 1)]

/-- On a frame with no detections, `update` just ages every track. -/
theorem update_nil (t : ObjectTracker) (c : ℕ → String) :
    t.update [] c =
      ({ t with tracks :=
          t.tracks.filterMap (fun tr => ageOnly t.maxMissingFrames (predictTrack tr)) },
       t.tracks.filterMap (fun tr => ageOnly t.maxMissingFrames (predictTrack tr))) := by
  have hasg : t.assignedTrackIdxs [] = [] := by
    unfold ObjectTracker.assignedTrackIdxs
    rw [acceptedMatches_nil]; rfl
  have haged : t.agedTracks [] =
      t.tracks.filterMap (fun tr => ageOnly t.maxMissingFrames (predictTrack tr)) := by
    unfold ObjectTracker.agedTracks
    rw [hasg]
    simp only [List.not_mem_nil, if_false, List.enum]
    rw [enumFrom_filterMap_snd]
    unfold ObjectTracker.predictAll
    rw [List.filterMap_map]
    rfl
  unfold ObjectTracker.update
  rw [acceptedMatches_nil, haged]
  simp [ObjectTracker.unmatchedDetections, ObjectTracker.newTracks]

theorem mem_emptyIter_of :
    ∀ (k : ℕ) (t : ObjectTracker) (tr : TrackedObject), tr ∈ t.tracks →
      tr.missingFrames + k < t.maxMissingFrames →
      ∃ tr' ∈ (emptyIter t k).tracks,
        tr'.id = tr.id ∧ tr'.missingFrames = tr.missingFrames + k
  | 0, t, tr, htr, _ => ⟨tr, htr, rfl, rfl⟩
  | k + 1, t, tr, htr, hlt => by
    have hstep : (t.update [] (fun _ => "")).1 =
        { t with tracks :=
            t.tracks.filterMap (fun s => ageOnly t.maxMissingFrames (predictTrack s)) } :=
      congrArg Prod.fst (update_nil t _)
    have hmem1 : ({ predictTrack tr with
        missingFrames := (predictTrack tr).missingFrames + 1 }) ∈
        (t.update [] (fun _ => "")).1.tracks := by
      rw [hstep]
      refine List.mem_filterMap.mpr ⟨tr, htr, ?_⟩
      unfold ageOnly
      rw [if_pos]
      show tr.missingFrames + 1 < t.maxMissingFrames
      omega
    have hcfg : (t.update [] (fun _ => "")).1.maxMissingFrames = t.maxMissingFrames := by
      rw [hstep]
    obtain ⟨tr', h1, h2, h3⟩ :=
      mem_emptyIter_of k (t.update [] (fun _ => "")).1 _ hmem1 (by rw [hcfg]; show tr.missingFrames + 1 + k < t.maxMissingFrames; omega)
    exact ⟨tr', h1, h2, by simpa [predictTrack] using h3.trans (by show tr.missingFrames + 1 + k = _; omega)⟩

theorem emptyIter_tracks_nil :
    ∀ (k : ℕ) (t : ObjectTracker),
      (∀ tr ∈ t.tracks, t.maxMissingFrames ≤ tr.missingFrames + (k + 1)) →
      (emptyIter t (k + 1)).tracks = []
  | 0, t, hall => by
    rw [emptyIter, emptyIter, congrArg Prod.fst (update_nil t _)]
    refine List.filterMap_eq_nil_iff.mpr fun tr htr => ?_
    simp only [ageOnly, predictTrack]
    rw [if_neg]
    have := hall tr htr
    omega
  | k + 1, t, hall => by
    rw [emptyIter]
    refine emptyIter_tracks_nil k _ fun tr1 htr1 => ?_
    rw [congrArg Prod.fst (update_nil t _)] at htr1 ⊢
    obtain ⟨tr, htr, heq⟩ := List.mem_filterMap.mp htr1
    simp only [ageOnly, predictTrack] at heq
    split at heq
    · cases heq
      have := hall tr htr
      simp only []
      omega
    · cases heq

/-- C3: a track with missingStreak 0 that goes unmatched on k
consecutive no-detection frames survives while `k < maxMissingStreak`,
appearing with `missingStreak = k`; from the frame where k reaches
`maxMissingStreak` the live set is empty — the track is gone
permanently. -/
theorem C3_occlusion_tolerance (t : ObjectTracker) (tr : TrackedObject)
    (htr : tr ∈ t.tracks) (h0 : tr.missingFrames = 0) :
    (∀ k, 0 < k → k < t.maxMissingFrames →
      ∃ tr' ∈ (emptyIter t k).tracks, tr'.id = tr.id ∧ tr'.missingFrames = k) ∧
    (∀ k, t.maxMissingFrames ≤ k → 1 ≤ k → (emptyIter t k).tracks = []) := by
  constructor
  · intro k _ hk
    obtain ⟨tr', h1, h2, h3⟩ := mem_emptyIter_of k t tr htr (by omega)
    exact ⟨tr', h1, h2, by omega⟩
  · intro k hk h1
    obtain ⟨k', rfl⟩ : ∃ k', k = k' + 1 := ⟨k - 1, by omega⟩
    exact emptyIter_tracks_nil k' t fun s _ => by omega

/-- C3 witness: a tracker with limit 3 and one fresh track; after one
empty frame the track is alive with streak 1, after three empty frames
the live set is empty. -/
theorem C3_occlusion_tolerance_witness :
    (∃ tr' ∈ (emptyIter (ObjectTracker.mk 2
        [⟨⟨0, 0, 1, 1⟩, "a", 1, 1, 0, "", (0, 0)⟩] 3 (1/4)) 1).tracks,
      tr'.id = (⟨⟨0, 0, 1, 1⟩, "a", 1, 1, 0, "", (0, 0)⟩ : TrackedObject).id ∧
        tr'.missingFrames = 1) ∧
    (emptyIter (ObjectTracker.mk 2
        [⟨⟨0, 0, 1, 1⟩, "a", 1, 1, 0, "", (0, 0)⟩] 3 (1/4)) 3).tracks = [] :=
  ⟨(C3_occlusion_tolerance _ _ (List.mem_singleton.mpr rfl) rfl).1 1
      (by norm_num) (by norm_num),
   (C3_occlusion_tolerance _ ⟨⟨0, 0, 1, 1⟩, "a", 1, 1, 0, "", (0, 0)⟩
      (List.mem_singleton.mpr rfl) rfl).2 3 (by norm_num) (by norm_num)⟩

/-- C4 counterexample: maxMissingStreak = 1, one live track with
missingStreak 0, one empty frame. The incremented streak (1) equals
the limit, and the code returns the empty list — the track is dropped,
while the claim says it is still retained. -/
theorem C4_counterexample :
    ((ObjectTracker.mk 2 [⟨⟨0, 0, 1, 1⟩, "a", 1, 1, 0, "", (0, 0)⟩] 1 (1/4)).update
      [] (fun _ => "")).2 = [] := by
  rw [update_nil]
  simp [ageOnly, predictTrack]

/-- C4 amended: a track is dropped as soon as its missingStreak
reaches (equals or exceeds) the configured limit: whenever the limit
is positive, every track in the list returned by `update` has
`missingStreak < maxMissingStreak`; in particular an unmatched track
whose incremented streak equals the limit is not retained. -/
theorem C4_amended_drop_at_limit (t : ObjectTracker)
    (detections : List DetectedObject) (c : ℕ → String)
    (hpos : 0 < t.maxMissingFrames) :
    ∀ tr' ∈ (t.update detections c).2, tr'.missingFrames < t.maxMissingFrames := by
  intro tr' htr'
  unfold ObjectTracker.update at htr'
  simp only [List.mem_append] at htr'
  rcases htr' with (h | h) | h
  · obtain ⟨m, _, rfl⟩ := List.mem_map.mp h
    simpa [applyMatch] using hpos
  · unfold ObjectTracker.agedTracks at h
    obtain ⟨p, _, heq⟩ := List.mem_filterMap.mp h
    split at heq
    · cases heq
    · simp only [ageOnly] at heq
      split at heq
      · cases heq
        assumption
      · cases heq
  · obtain ⟨r, _, rfl⟩ := List.mem_map.mp h
    simpa using hpos

/-- C4 amended witness: with limit 3 and one fresh track, the track
aged by the empty frame is returned with streak 1 < 3. -/
theorem C4_amended_drop_at_limit_witness :
    (⟨⟨0, 0, 1, 1⟩, "a", 1, 1, 1, "", (0, 0)⟩ : TrackedObject).missingFrames <
      (ObjectTracker.mk 2 [⟨⟨0, 0, 1, 1⟩, "a", 1, 1, 0, "", (0, 0)⟩] 3
        (1/4)).maxMissingFrames :=
  C4_amended_drop_at_limit _ [] (fun _ => "") (by norm_num) _
    (by rw [update_nil]; simp [ageOnly, predictTrack])

theorem mem_candidateMatches {t : ObjectTracker}
    {detections : List DetectedObject} {m : MatchCand}
    (hm : m ∈ t.candidateMatches detections) :
    t.predictAll[m.trackIdx]? = some m.track ∧
    detections[m.detIdx]? = some m.det ∧
    t.iouThreshold ≤ m.iou ∧
    m.iou = calculateIoU m.track.bbox m.det.bbox := by
  unfold ObjectTracker.candidateMatches at hm
  obtain ⟨p, hp, hm2⟩ := List.mem_flatMap.mp hm
  obtain ⟨q, hq, heq⟩ := List.mem_filterMap.mp hm2
  rw [List.mem_enum_iff_getElem?] at hp hq
  split at heq
  · cases heq
    exact ⟨hp, hq, by assumption, rfl⟩
  · cases heq

theorem greedyAccept_sublist : ∀ (l : List MatchCand) (aT aD : List ℕ),
    (greedyAccept l aT aD).Sublist l
  | [], _, _ => List.nil_sublist []
  | m :: rest, aT, aD => by
    rw [greedyAccept]
    split
    · exact (greedyAccept_sublist rest aT aD).cons m
    · exact (greedyAccept_sublist rest _ _).cons₂ m

theorem not_mem_of_mem_greedyAccept :
    ∀ (l : List MatchCand) (aT aD : List ℕ) (m : MatchCand),
      m ∈ greedyAccept l aT aD → m.trackIdx ∉ aT ∧ m.detIdx ∉ aD
  | [], _, _, _, h => absurd h (List.not_mem_nil _)
  | x :: rest, aT, aD, m, h => by
    rw [greedyAccept] at h
    split at h
    · exact not_mem_of_mem_greedyAccept rest aT aD m h
    · rename_i hcond
      push_neg at hcond
      rcases List.mem_cons.mp h with rfl | h2
      · exact hcond
      · have h3 := not_mem_of_mem_greedyAccept rest _ _ m h2
        exact ⟨fun hM => h3.1 (List.mem_cons_of_mem _ hM),
               fun hM => h3.2 (List.mem_cons_of_mem _ hM)⟩

theorem greedyAccept_trackIdx_nodup : ∀ (l : List MatchCand) (aT aD : List ℕ),
    ((greedyAccept l aT aD).map (·.trackIdx)).Nodup
  | [], _, _ => List.nodup_nil
  | x :: rest, aT, aD => by
    rw [greedyAccept]
    split
    · exact greedyAccept_trackIdx_nodup rest aT aD
    · rw [List.map_cons]
      refine List.nodup_cons.mpr ⟨?_, greedyAccept_trackIdx_nodup rest _ _⟩
      intro hmem
      obtain ⟨m, hm, hEq⟩ := List.mem_map.mp hmem
      exact (not_mem_of_mem_greedyAccept rest _ _ m hm).1
        (by rw [hEq]; exact List.mem_cons_self _ _)

theorem greedyAccept_detIdx_nodup : ∀ (l : List MatchCand) (aT aD : List ℕ),
    ((greedyAccept l aT aD).map (·.detIdx)).Nodup
  | [], _, _ => List.nodup_nil
  | x :: rest, aT, aD => by
    rw [greedyAccept]
    split
    · exact greedyAccept_detIdx_nodup rest aT aD
    · rw [List.map_cons]
      refine List.nodup_cons.mpr ⟨?_, greedyAccept_detIdx_nodup rest _ _⟩
      intro hmem
      obtain ⟨m, hm, hEq⟩ := List.mem_map.mp hmem
      exact (not_mem_of_mem_greedyAccept rest _ _ m hm).2
        (by rw [hEq]; exact List.mem_cons_self _ _)

theorem mem_acceptedMatches {t : ObjectTracker}
    {detections : List DetectedObject} {m : MatchCand}
    (hm : m ∈ t.acceptedMatches detections) : m ∈ t.candidateMatches detections :=
  (List.perm_insertionSort iouDescRel _).mem_iff.mp
    ((greedyAccept_sublist _ _ _).subset hm)

theorem acceptedMatches_idx_lt {t : ObjectTracker}
    {detections : List DetectedObject} {m : MatchCand}
    (hm : m ∈ t.acceptedMatches detections) :
    m.trackIdx < t.tracks.length ∧ m.detIdx < detections.length := by
  obtain ⟨h1, h2, _, _⟩ := mem_candidateMatches (mem_acceptedMatches hm)
  constructor
  · have h3 := (List.getElem?_eq_some_iff.mp h1).1
    simpa [ObjectTracker.predictAll] using h3
  · exact (List.getElem?_eq_some_iff.mp h2).1

/-- C6: in every update call the accepted match set is one-to-one (no
track index or detection index repeats), has size at most
min(tracks, detections), contains only pairs at or above the IoU
threshold, and is a sublist of the IoU-descending sorted candidate
list (greedy acceptance in descending IoU order). -/
theorem C6_greedy_one_to_one (t : ObjectTracker)
    (detections : List DetectedObject) :
    (t.acceptedMatches detections).length ≤
      min t.tracks.length detections.length ∧
    ((t.acceptedMatches detections).map (·.trackIdx)).Nodup ∧
    ((t.acceptedMatches detections).map (·.detIdx)).Nodup ∧
    (∀ m ∈ t.acceptedMatches detections, t.iouThreshold ≤ m.iou) ∧
    (t.acceptedMatches detections).Sublist (t.sortedMatches detections) ∧
    (t.acceptedMatches detections).Pairwise iouDescRel := by
  have hT : ((t.acceptedMatches detections).map (·.trackIdx)) ⊆
      List.range t.tracks.length := by
    intro i hi
    obtain ⟨m, hm, rfl⟩ := List.mem_map.mp hi
    exact List.mem_range.mpr (acceptedMatches_idx_lt hm).1
  have hD : ((t.acceptedMatches detections).map (·.detIdx)) ⊆
      List.range detections.length := by
    intro i hi
    obtain ⟨m, hm, rfl⟩ := List.mem_map.mp hi
    exact List.mem_range.mpr (acceptedMatches_idx_lt hm).2
  have l1 := (List.Nodup.subperm (greedyAccept_trackIdx_nodup _ _ _) hT).length_le
  have l2 := (List.Nodup.subperm (greedyAccept_detIdx_nodup _ _ _) hD).length_le
  rw [List.length_map, List.length_range] at l1 l2
  refine ⟨le_min l1 l2, greedyAccept_trackIdx_nodup _ _ _,
    greedyAccept_detIdx_nodup _ _ _,
    fun m hm => (mem_candidateMatches (mem_acceptedMatches hm)).2.2.1,
    greedyAccept_sublist _ _ _,
    List.Pairwise.sublist (greedyAccept_sublist _ _ _)
      (List.sorted_insertionSort iouDescRel _)⟩

/-- C6 witness: the one-to-one matching bound and the threshold bound
evaluated at a tracker with one live track and one overlapping
detection (IoU 3/5 ≥ 1/4). -/
theorem C6_greedy_one_to_one_witness :
    ((ObjectTracker.mk 2 [⟨⟨10, 10, 20, 20⟩, "obj", 1/2, 1, 0, "", (0, 0)⟩] 30
        (1/4)).acceptedMatches [⟨⟨15, 10, 20, 20⟩, "obj", 1/2⟩]).length ≤
      min (ObjectTracker.mk 2 [⟨⟨10, 10, 20, 20⟩, "obj", 1/2, 1, 0, "", (0, 0)⟩]
        30 (1/4)).tracks.length
        ([⟨⟨15, 10, 20, 20⟩, "obj", 1/2⟩] : List DetectedObject).length ∧
    (ObjectTracker.mk 2 [⟨⟨10, 10, 20, 20⟩, "obj", 1/2, 1, 0, "", (0, 0)⟩] 30
        (1/4)).iouThreshold ≤
      (⟨0, 0, 3/5, ⟨⟨10, 10, 20, 20⟩, "obj", 1/2, 1, 0, "", (0, 0)⟩,
        ⟨⟨15, 10, 20, 20⟩, "obj", 1/2⟩⟩ : MatchCand).iou :=
  ⟨(C6_greedy_one_to_one _ _).1,
   (C6_greedy_one_to_one _ [⟨⟨15, 10, 20, 20⟩, "obj", 1/2⟩]).2.2.2.1 _ (by
    norm_num [ObjectTracker.acceptedMatches, ObjectTracker.sortedMatches,
      ObjectTracker.candidateMatches, ObjectTracker.predictAll, greedyAccept,
      predictTrack, calculateIoU, iouDescRel, List.insertionSort,
      List.orderedInsert, List.enum, List.enumFrom, List.flatMap,
      List.filterMap_cons, List.mem_cons, List.mem_singleton])⟩

/-- C2: every accepted (track, detection) pair yields, in the returned
list, the track updated as specified: velocity is the α=0.5 blend of
the old velocity with the measured displacement (detection top-left
minus the pre-prediction position, i.e. the predicted position minus
the old velocity), the box/label/score are the detection's outright,
and missingStreak is reset to 0. -/
theorem C2_matched_update (t : ObjectTracker)
    (detections : List DetectedObject) (c : ℕ → String) (m : MatchCand)
    (hm : m ∈ t.acceptedMatches detections) :
    applyMatch m ∈ (t.update detections c).2 ∧
    (applyMatch m).id = m.track.id ∧
    (applyMatch m).velocity =
      (m.track.velocity.1 * (1 - 1/2) +
        (m.det.bbox.x - (m.track.bbox.x - m.track.velocity.1)) * (1/2),
       m.track.velocity.2 * (1 - 1/2) +
        (m.det.bbox.y - (m.track.bbox.y - m.track.velocity.2)) * (1/2)) ∧
    (applyMatch m).bbox = m.det.bbox ∧
    (applyMatch m).cls = m.det.cls ∧
    (applyMatch m).score = m.det.score ∧
    (applyMatch m).missingFrames = 0 := by
  refine ⟨?_, rfl, rfl, rfl, rfl, rfl, rfl⟩
  unfold ObjectTracker.update
  exact List.mem_append_left _
    (List.mem_append_left _ (List.mem_map_of_mem applyMatch hm))

/-- C2 witness: the matched-update theorem evaluated at the single
accepted pair of the one-track/one-detection scenario; the smoothed
velocity is (2.5, 0). -/
theorem C2_matched_update_witness :
    applyMatch (⟨0, 0, 3/5, ⟨⟨10, 10, 20, 20⟩, "obj", 1/2, 1, 0, "", (0, 0)⟩,
        ⟨⟨15, 10, 20, 20⟩, "obj", 1/2⟩⟩ : MatchCand) ∈
      ((ObjectTracker.mk 2 [⟨⟨10, 10, 20, 20⟩, "obj", 1/2, 1, 0, "", (0, 0)⟩] 30
        (1/4)).update [⟨⟨15, 10, 20, 20⟩, "obj", 1/2⟩] (fun _ => "")).2 ∧
    (applyMatch (⟨0, 0, 3/5, ⟨⟨10, 10, 20, 20⟩, "obj", 1/2, 1, 0, "", (0, 0)⟩,
        ⟨⟨15, 10, 20, 20⟩, "obj", 1/2⟩⟩ : MatchCand)).id = 1 ∧
    (applyMatch (⟨0, 0, 3/5, ⟨⟨10, 10, 20, 20⟩, "obj", 1/2, 1, 0, "", (0, 0)⟩,
        ⟨⟨15, 10, 20, 20⟩, "obj", 1/2⟩⟩ : MatchCand)).missingFrames = 0 := by
  have h := C2_matched_update
    (ObjectTracker.mk 2 [⟨⟨10, 10, 20, 20⟩, "obj", 1/2, 1, 0, "", (0, 0)⟩] 30
      (1/4)) [⟨⟨15, 10, 20, 20⟩, "obj", 1/2⟩] (fun _ => "")
    (⟨0, 0, 3/5, ⟨⟨10, 10, 20, 20⟩, "obj", 1/2, 1, 0, "", (0, 0)⟩,
      ⟨⟨15, 10, 20, 20⟩, "obj", 1/2⟩⟩ : MatchCand) (by
    norm_num [ObjectTracker.acceptedMatches, ObjectTracker.sortedMatches,
      ObjectTracker.candidateMatches, ObjectTracker.predictAll, greedyAccept,
      predictTrack, calculateIoU, iouDescRel, List.insertionSort,
      List.orderedInsert, List.enum, List.enumFrom, List.flatMap,
      List.filterMap_cons, List.mem_cons, List.mem_singleton])
  exact ⟨h.1, h.2.1, h.2.2.2.2.2.2⟩

/-- C9: `reset` produces exactly the freshly-constructed tracker state
with the same configuration (state equality, hence identical later
behaviour up to the color source); its live set is empty and the first
spawned track of the next update call receives id 1 (it heads the
returned list when the detection list is nonempty). -/
theorem C9_reset_like_new (t : ObjectTracker) :
    t.reset = mkTracker t.maxMissingFrames t.iouThreshold ∧
    t.reset.tracks = [] ∧
    ∀ (d : DetectedObject) (dets : List DetectedObject) (c : ℕ → String),
      ∃ tr', ((t.reset.update (d :: dets) c).2).head? = some tr' ∧ tr'.id = 1 := by
  refine ⟨rfl, rfl, fun d dets c => ?_⟩
  have hc : t.reset.candidateMatches (d :: dets) = [] := by
    simp [ObjectTracker.candidateMatches, ObjectTracker.predictAll,
      ObjectTracker.reset]
  have ha : t.reset.acceptedMatches (d :: dets) = [] := by
    unfold ObjectTracker.acceptedMatches ObjectTracker.sortedMatches
    rw [hc]
    rfl
  have hout : ((t.reset.update (d :: dets) c).2).head? =
      some { bbox := d.bbox, cls := d.cls, score := d.score, id := 1,
             missingFrames := 0, color := c 0, velocity := (0, 0) } := by
    have hag : t.reset.agedTracks (d :: dets) = [] := by
      simp [ObjectTracker.agedTracks, ObjectTracker.predictAll,
        ObjectTracker.reset]
    unfold ObjectTracker.update
    rw [ha, hag]
    simp [ObjectTracker.newTracks, ObjectTracker.unmatchedDetections,
      ObjectTracker.assignedDetIdxs, ha, ObjectTracker.reset, List.enum,
      List.enumFrom]
  exact ⟨_, hout, rfl⟩



theorem mem_agedTracks {t : ObjectTracker} {detections : List DetectedObject}
    {tr' : TrackedObject} (h : tr' ∈ t.agedTracks detections) :
    ∃ i tr, t.predictAll[i]? = some tr ∧ i ∉ t.assignedTrackIdxs detections ∧
      tr'.id = tr.id ∧ tr'.missingFrames = tr.missingFrames + 1 := by
  unfold ObjectTracker.agedTracks at h
  obtain ⟨p, hp, heq⟩ := List.mem_filterMap.mp h
  rw [List.mem_enum_iff_getElem?] at hp
  split at heq
  · cases heq
  · simp only [ageOnly] at heq
    split at heq
    · cases heq
      exact ⟨p.1, p.2, hp, by assumption, rfl, rfl⟩
    · cases heq

theorem predictAll_id_getElem {t : ObjectTracker} {i : ℕ} {tr : TrackedObject}
    (h : t.predictAll[i]? = some tr) :
    (t.tracks.map (·.id))[i]? = some tr.id := by
  unfold ObjectTracker.predictAll at h
  rw [List.getElem?_map] at h ⊢
  cases hh : t.tracks[i]? with
  | none => rw [hh] at h; cases h
  | some s => rw [hh] at h; cases h; rfl

theorem acceptedMatches_id_getElem {t : ObjectTracker}
    {detections : List DetectedObject} {m : MatchCand}
    (hm : m ∈ t.acceptedMatches detections) :
    (t.tracks.map (·.id))[m.trackIdx]? = some m.track.id :=
  predictAll_id_getElem (mem_candidateMatches (mem_acceptedMatches hm)).1

theorem filterMap_map_sublist {α β γ : Type} {F : α → Option β} {G : β → γ}
    {H : α → γ} (hFG : ∀ a b, F a = some b → G b = H a) :
    ∀ l : List α, ((l.filterMap F).map G).Sublist (l.map H)
  | [] => List.nil_sublist _
  | a :: l => by
    rw [List.map_cons, List.filterMap_cons]
    cases hFa : F a with
    | none => exact (filterMap_map_sublist hFG l).cons (H a)
    | some b =>
      rw [List.map_cons, hFG a b hFa]
      exact (filterMap_map_sublist hFG l).cons₂ (H a)

theorem agedTracks_map_id_sublist (t : ObjectTracker)
    (detections : List DetectedObject) :
    ((t.agedTracks detections).map (·.id)).Sublist (t.tracks.map (·.id)) := by
  unfold ObjectTracker.agedTracks
  have hFG : ∀ (a : ℕ × TrackedObject) (b : TrackedObject),
      (if a.1 ∈ t.assignedTrackIdxs detections then none
        else ageOnly t.maxMissingFrames a.2) = some b → b.id = a.2.id := by
    intro a b hab
    split at hab
    · cases hab
    · simp only [ageOnly] at hab
      split at hab
      · cases hab; rfl
      · cases hab
  have hsub := filterMap_map_sublist (G := (·.id))
    (H := fun p : ℕ × TrackedObject => p.2.id)
    (F := fun p => if p.1 ∈ t.assignedTrackIdxs detections then none
      else ageOnly t.maxMissingFrames p.2) hFG t.predictAll.enum
  have heq : t.predictAll.enum.map (fun p : ℕ × TrackedObject => p.2.id) =
      t.tracks.map (·.id) := by
    have h1 : t.predictAll.enum.map (fun p : ℕ × TrackedObject => p.2.id) =
        (t.predictAll.enum.map Prod.snd).map (·.id) := by
      rw [List.map_map]; rfl
    rw [h1, List.enum_map_snd]
    unfold ObjectTracker.predictAll
    rw [List.map_map]
    rfl
  rw [heq] at hsub
  exact hsub

theorem update_fst_tracks (t : ObjectTracker) (detections : List DetectedObject)
    (c : ℕ → String) : (t.update detections c).1.tracks =
      (t.acceptedMatches detections).map applyMatch ++
        t.agedTracks detections ++ t.newTracks detections c := rfl

theorem update_snd (t : ObjectTracker) (detections : List DetectedObject)
    (c : ℕ → String) : (t.update detections c).2 =
      (t.acceptedMatches detections).map applyMatch ++
        t.agedTracks detections ++ t.newTracks detections c := rfl

theorem update_fst_nextId (t : ObjectTracker) (detections : List DetectedObject)
    (c : ℕ → String) : (t.update detections c).1.nextId =
      t.nextId + (t.unmatchedDetections detections).length := rfl

theorem newTracks_mem {t : ObjectTracker} {detections : List DetectedObject}
    {c : ℕ → String} {tr' : TrackedObject} (h : tr' ∈ t.newTracks detections c) :
    ∃ k, k < (t.unmatchedDetections detections).length ∧
      tr'.id = t.nextId + k ∧ tr'.missingFrames = 0 := by
  unfold ObjectTracker.newTracks at h
  obtain ⟨r, hr, rfl⟩ := List.mem_map.mp h
  rw [List.mem_enum_iff_getElem?] at hr
  exact ⟨r.1, (List.getElem?_eq_some_iff.mp hr).1, rfl, rfl⟩

theorem matched_ids_nodup (t : ObjectTracker) (detections : List DetectedObject)
    (hids : (t.tracks.map (·.id)).Nodup) :
    (((t.acceptedMatches detections).map applyMatch).map (·.id)).Nodup := by
  rw [List.map_map]
  have hA : (t.acceptedMatches detections).Nodup :=
    List.Nodup.of_map _ (greedyAccept_trackIdx_nodup _ _ _)
  refine List.Nodup.map_on ?_ hA
  intro x hx y hy hxy
  have hxg := acceptedMatches_id_getElem hx
  have hyg := acceptedMatches_id_getElem hy
  have hlt : x.trackIdx < (t.tracks.map (·.id)).length := by
    rw [List.length_map]; exact (acceptedMatches_idx_lt hx).1
  have hxy2 : x.track.id = y.track.id := hxy
  have hidx : x.trackIdx = y.trackIdx :=
    List.getElem?_inj hlt hids (by rw [hxg, hyg, hxy2])
  exact List.inj_on_of_nodup_map (greedyAccept_trackIdx_nodup _ _ _) hx hy hidx

theorem matched_aged_ids_disjoint (t : ObjectTracker)
    (detections : List DetectedObject) (hids : (t.tracks.map (·.id)).Nodup) :
    ∀ v ∈ ((t.acceptedMatches detections).map applyMatch).map (·.id),
      v ∉ (t.agedTracks detections).map (·.id) := by
  intro v hv hv2
  obtain ⟨u, hu, rfl⟩ := List.mem_map.mp hv
  obtain ⟨m, hm, rfl⟩ := List.mem_map.mp hu
  obtain ⟨tr', htr', hid'⟩ := List.mem_map.mp hv2
  obtain ⟨i, tr, hg, hni, hid, _⟩ := mem_agedTracks htr'
  have hxg := acceptedMatches_id_getElem hm
  have hig := predictAll_id_getElem hg
  have hlt : m.trackIdx < (t.tracks.map (·.id)).length := by
    rw [List.length_map]; exact (acceptedMatches_idx_lt hm).1
  have hveq : m.track.id = tr.id := by
    have h5 : (applyMatch m).id = m.track.id := rfl
    rw [← hid, hid', h5]
  have hidx : m.trackIdx = i :=
    List.getElem?_inj hlt hids (by rw [hxg, hig, hveq])
  exact hni (hidx ▸ (List.mem_map_of_mem (·.trackIdx) hm))

theorem newTracks_ids_nodup (t : ObjectTracker) (detections : List DetectedObject)
    (c : ℕ → String) : ((t.newTracks detections c).map (·.id)).Nodup := by
  unfold ObjectTracker.newTracks
  rw [List.map_map]
  have h1 : ((fun x : TrackedObject => x.id) ∘
      fun r : ℕ × (ℕ × DetectedObject) =>
        ({ bbox := r.2.2.bbox, cls := r.2.2.cls, score := r.2.2.score,
           id := t.nextId + r.1, missingFrames := 0, color := c r.1,
           velocity := (0, 0) } : TrackedObject)) =
      (fun i => t.nextId + i) ∘ Prod.fst := rfl
  rw [h1, ← List.map_map, List.enum_map_fst]
  exact List.Nodup.map (fun a b h => by omega) (List.nodup_range _)

theorem trackerIdInv_update (t : ObjectTracker)
    (detections : List DetectedObject) (c : ℕ → String)
    (hinv : TrackerIdInv t) : TrackerIdInv (t.update detections c).1 := by
  obtain ⟨h1, h2, h3⟩ := hinv
  have hidmem : ∀ {v : ℕ}, v ∈ t.tracks.map (·.id) → 0 < v ∧ v < t.nextId := by
    intro v hv
    obtain ⟨tr, htr, rfl⟩ := List.mem_map.mp hv
    exact h2 tr htr
  refine ⟨?_, ?_, ?_⟩
  · rw [update_fst_nextId]
    omega
  · intro tr' htr'
    rw [update_fst_tracks] at htr'
    rw [update_fst_nextId]
    rcases List.mem_append.mp htr' with hmm | hnew
    · rcases List.mem_append.mp hmm with hmat | haged
      · obtain ⟨m, hm, rfl⟩ := List.mem_map.mp hmat
        have hb := hidmem (List.getElem?_mem (acceptedMatches_id_getElem hm))
        have h5 : (applyMatch m).id = m.track.id := rfl
        rw [h5]
        exact ⟨hb.1, by omega⟩
      · obtain ⟨i, tr, hg, _, hid, _⟩ := mem_agedTracks haged
        have hb := hidmem (List.getElem?_mem (predictAll_id_getElem hg))
        rw [hid]
        exact ⟨hb.1, by omega⟩
    · obtain ⟨k, hk, hid, _⟩ := newTracks_mem hnew
      rw [hid]
      omega
  · rw [update_fst_tracks, List.map_append, List.map_append,
      List.nodup_append, List.nodup_append]
    refine ⟨⟨matched_ids_nodup t detections h3,
      List.Nodup.sublist (agedTracks_map_id_sublist t detections) h3,
      matched_aged_ids_disjoint t detections h3⟩,
      newTracks_ids_nodup t detections c, ?_⟩
    intro v hv hvNew
    have hvlt : v < t.nextId := by
      rcases List.mem_append.mp hv with hmat | haged
      · obtain ⟨u, hu, rfl⟩ := List.mem_map.mp hmat
        obtain ⟨m, hm, rfl⟩ := List.mem_map.mp hu
        exact (hidmem (List.getElem?_mem (acceptedMatches_id_getElem hm))).2
      · obtain ⟨tr', htr', rfl⟩ := List.mem_map.mp haged
        obtain ⟨i, tr, hg, _, hid, _⟩ := mem_agedTracks htr'
        rw [hid]
        exact (hidmem (List.getElem?_mem (predictAll_id_getElem hg))).2
    obtain ⟨tr', htr', rfl⟩ := List.mem_map.mp hvNew
    obtain ⟨k, _, hid, _⟩ := newTracks_mem htr'
    omega

theorem reachable_trackerIdInv : ∀ {t : ObjectTracker},
    Reachable t → TrackerIdInv t := by
  intro t h
  induction h with
  | mk m thr =>
    exact ⟨le_refl 1, fun tr htr => absurd htr (List.not_mem_nil _),
      List.nodup_nil⟩
  | update t dets c _ ih => exact trackerIdInv_update t dets c ih
  | reset t _ _ =>
    exact ⟨le_refl 1, fun tr htr => absurd htr (List.not_mem_nil _),
      List.nodup_nil⟩

/-- C7 amended: in every reachable tracker state (any sequence of
update and reset calls from construction), live track ids are
positive, pairwise distinct, and below the next-id counter; and any
further update call returns only tracks whose id is either an old id
(below the counter) or a fresh id at or above the counter and strictly
greater than every live id. Ids therefore increase monotonically and
are never reused only between resets: `reset` restarts the counter at
1, so ids are reused across a reset (see the counterexample). -/
theorem C7_id_uniqueness (t : ObjectTracker) (hreach : Reachable t) :
    (1 ≤ t.nextId ∧ (∀ tr ∈ t.tracks, 0 < tr.id ∧ tr.id < t.nextId) ∧
      (t.tracks.map (·.id)).Nodup) ∧
    (∀ (dets : List DetectedObject) (c : ℕ → String),
      ∀ tr' ∈ (t.update dets c).2,
        tr'.id < t.nextId ∨
          (t.nextId ≤ tr'.id ∧ ∀ tr ∈ t.tracks, tr.id < tr'.id)) := by
  obtain ⟨h1, h2, h3⟩ := reachable_trackerIdInv hreach
  refine ⟨⟨h1, h2, h3⟩, ?_⟩
  intro dets c tr' htr'
  have hidmem : ∀ {v : ℕ}, v ∈ t.tracks.map (·.id) → 0 < v ∧ v < t.nextId := by
    intro v hv
    obtain ⟨tr, htr, rfl⟩ := List.mem_map.mp hv
    exact h2 tr htr
  rw [update_snd] at htr'
  rcases List.mem_append.mp htr' with hmm | hnew
  · rcases List.mem_append.mp hmm with hmat | haged
    · obtain ⟨m, hm, rfl⟩ := List.mem_map.mp hmat
      have h5 : (applyMatch m).id = m.track.id := rfl
      rw [h5]
      exact Or.inl (hidmem (List.getElem?_mem (acceptedMatches_id_getElem hm))).2
    · obtain ⟨i, tr, hg, _, hid, _⟩ := mem_agedTracks haged
      rw [hid]
      exact Or.inl (hidmem (List.getElem?_mem (predictAll_id_getElem hg))).2
  · obtain ⟨k, _, hid, _⟩ := newTracks_mem hnew
    refine Or.inr ⟨by omega, fun tr htr => ?_⟩
    have := (h2 tr htr).2
    omega

/-- C7 witness: the id invariant instantiated at the freshly
constructed default tracker, which is reachable by construction. -/
theorem C7_id_uniqueness_witness :
    (1 ≤ (mkTracker 30 (1/4)).nextId ∧
      (∀ tr ∈ (mkTracker 30 (1/4)).tracks,
        0 < tr.id ∧ tr.id < (mkTracker 30 (1/4)).nextId) ∧
      ((mkTracker 30 (1/4)).tracks.map (·.id)).Nodup) ∧
    (∀ (dets : List DetectedObject) (c : ℕ → String),
      ∀ tr' ∈ ((mkTracker 30 (1/4)).update dets c).2,
        tr'.id < (mkTracker 30 (1/4)).nextId ∨
          ((mkTracker 30 (1/4)).nextId ≤ tr'.id ∧
            ∀ tr ∈ (mkTracker 30 (1/4)).tracks, tr.id < tr'.id)) :=
  C7_id_uniqueness (mkTracker 30 (1/4)) (Reachable.mk 30 (1/4))

/-- C7 counterexample: ids are reused across a reset. A fresh default
tracker assigns id 1 to its first spawned track; after `reset()` the
same instance assigns id 1 again, so the newly spawned id is not
strictly greater than every id assigned earlier by the instance. -/
theorem C7_counterexample :
    ((mkTracker 30 (1/4)).update [⟨⟨0, 0, 4, 4⟩, "a", 1⟩]
      (fun _ => "")).2.map (·.id) = [1] ∧
    (((((mkTracker 30 (1/4)).update [⟨⟨0, 0, 4, 4⟩, "a", 1⟩]
      (fun _ => "")).1.reset).update [⟨⟨0, 0, 4, 4⟩, "a", 1⟩]
      (fun _ => "")).2).map (·.id) = [1] := by
  have h1 : (mkTracker 30 (1/4)).update [⟨⟨0, 0, 4, 4⟩, "a", 1⟩] (fun _ => "") =
      (⟨2, [⟨⟨0, 0, 4, 4⟩, "a", 1, 1, 0, "", (0, 0)⟩], 30, 1/4⟩,
       [⟨⟨0, 0, 4, 4⟩, "a", 1, 1, 0, "", (0, 0)⟩]) := by
    norm_num [ObjectTracker.update, ObjectTracker.acceptedMatches,
      ObjectTracker.sortedMatches, ObjectTracker.candidateMatches,
      ObjectTracker.predictAll, ObjectTracker.agedTracks,
      ObjectTracker.newTracks, ObjectTracker.unmatchedDetections,
      ObjectTracker.assignedTrackIdxs, ObjectTracker.assignedDetIdxs,
      greedyAccept, applyMatch, predictTrack, calculateIoU, mkTracker, ageOnly,
      iouDescRel, List.insertionSort, List.orderedInsert, List.enum,
      List.enumFrom, List.flatMap, List.filterMap_cons, List.filter_cons,
      List.mem_cons, List.mem_singleton, List.not_mem_nil]
  have h2 : (ObjectTracker.mk 2 [⟨⟨0, 0, 4, 4⟩, "a", 1, 1, 0, "", (0, 0)⟩] 30
      (1/4)).reset = mkTracker 30 (1/4) := rfl
  rw [h1, h2, h1]
  exact ⟨rfl, rfl⟩



theorem stripColor_missingFrames_eq {a b : TrackedObject}
    (h : stripColor a = stripColor b) : a.missingFrames = b.missingFrames := by
  have h2 := congrArg TrackedObject.missingFrames h
  exact h2

theorem stripColor_bbox_eq {a b : TrackedObject}
    (h : stripColor a = stripColor b) : a.bbox = b.bbox := by
  have h2 := congrArg TrackedObject.bbox h
  exact h2

theorem candInner_congr {thr : ℚ} {a b : TrackedObject}
    (hab : stripColor a = stripColor b) (n : ℕ)
    (qs : List (ℕ × DetectedObject)) :
    (qs.filterMap (fun q =>
      if thr ≤ calculateIoU a.bbox q.2.bbox then
        some (⟨n, q.1, calculateIoU a.bbox q.2.bbox, a, q.2⟩ : MatchCand)
      else none)).map stripCand =
    (qs.filterMap (fun q =>
      if thr ≤ calculateIoU b.bbox q.2.bbox then
        some (⟨n, q.1, calculateIoU b.bbox q.2.bbox, b, q.2⟩ : MatchCand)
      else none)).map stripCand := by
  have hbb : a.bbox = b.bbox := stripColor_bbox_eq hab
  induction qs with
  | nil => rfl
  | cons q qs ih =>
    by_cases hc : thr ≤ calculateIoU a.bbox q.2.bbox
    · rw [List.filterMap_cons_some (b := ⟨n, q.1, calculateIoU a.bbox q.2.bbox, a, q.2⟩)
        (by rw [if_pos hc]),
        List.filterMap_cons_some (b := ⟨n, q.1, calculateIoU b.bbox q.2.bbox, b, q.2⟩)
        (by rw [if_pos (hbb ▸ hc)])]
      rw [List.map_cons, List.map_cons, ih]
      congr 1
      show (⟨n, q.1, calculateIoU a.bbox q.2.bbox, stripColor a, q.2⟩ : MatchCand) =
        ⟨n, q.1, calculateIoU b.bbox q.2.bbox, stripColor b, q.2⟩
      rw [hbb, hab]
    · rw [List.filterMap_cons_none (by rw [if_neg hc]),
        List.filterMap_cons_none (by rw [if_neg (hbb ▸ hc)])]
      exact ih

theorem candOuter_congr {thr : ℚ} (dets : List DetectedObject) :
    ∀ (l1 l2 : List TrackedObject) (n : ℕ),
      l1.map stripColor = l2.map stripColor →
      ((l1.enumFrom n).flatMap (fun p =>
        dets.enum.filterMap fun q =>
          if thr ≤ calculateIoU p.2.bbox q.2.bbox then
            some ⟨p.1, q.1, calculateIoU p.2.bbox q.2.bbox, p.2, q.2⟩
          else none)).map stripCand =
      ((l2.enumFrom n).flatMap (fun p =>
        dets.enum.filterMap fun q =>
          if thr ≤ calculateIoU p.2.bbox q.2.bbox then
            some ⟨p.1, q.1, calculateIoU p.2.bbox q.2.bbox, p.2, q.2⟩
          else none)).map stripCand
  | [], [], _, _ => rfl
  | [], b :: l2, n, h => by simp at h
  | a :: l1, [], n, h => by simp at h
  | a :: l1, b :: l2, n, h => by
    rw [List.map_cons, List.map_cons] at h
    have h1 : stripColor a = stripColor b := List.head_eq_of_cons_eq h
    have h2 : l1.map stripColor = l2.map stripColor := List.tail_eq_of_cons_eq h
    simp only [List.enumFrom_cons, List.flatMap_cons, List.map_append]
    rw [candInner_congr h1 n dets.enum, candOuter_congr dets l1 l2 (n + 1) h2]

theorem candidateMatches_congr {t1 t2 : ObjectTracker}
    (dets : List DetectedObject) (hthr : t1.iouThreshold = t2.iouThreshold)
    (htr : t1.tracks.map stripColor = t2.tracks.map stripColor) :
    (t1.candidateMatches dets).map stripCand =
      (t2.candidateMatches dets).map stripCand := by
  have hcomp : stripColor ∘ predictTrack = predictTrack ∘ stripColor := rfl
  have hpred : t1.predictAll.map stripColor = t2.predictAll.map stripColor := by
    unfold ObjectTracker.predictAll
    rw [List.map_map, List.map_map, hcomp, ← List.map_map, ← List.map_map, htr]
  unfold ObjectTracker.candidateMatches
  rw [hthr]
  exact candOuter_congr dets t1.predictAll t2.predictAll 0 hpred

theorem stripCand_trackIdx (m : MatchCand) : (stripCand m).trackIdx = m.trackIdx := rfl

theorem stripCand_detIdx (m : MatchCand) : (stripCand m).detIdx = m.detIdx := rfl

theorem orderedInsert_map_stripCand (a : MatchCand) :
    ∀ l : List MatchCand,
      List.orderedInsert iouDescRel (stripCand a) (l.map stripCand) =
        (List.orderedInsert iouDescRel a l).map stripCand
  | [] => rfl
  | b :: l => by
    simp only [List.orderedInsert, List.map_cons]
    rw [apply_ite (List.map stripCand)]
    simp only [List.map_cons]
    rw [← orderedInsert_map_stripCand a l]
    exact if_congr Iff.rfl rfl rfl

theorem insertionSort_map_stripCand : ∀ l : List MatchCand,
    List.insertionSort iouDescRel (l.map stripCand) =
      (List.insertionSort iouDescRel l).map stripCand
  | [] => rfl
  | a :: l => by
    simp only [List.map_cons, List.insertionSort]
    rw [insertionSort_map_stripCand l, orderedInsert_map_stripCand]

theorem greedyAccept_map_stripCand : ∀ (l : List MatchCand) (aT aD : List ℕ),
    greedyAccept (l.map stripCand) aT aD = (greedyAccept l aT aD).map stripCand
  | [], _, _ => rfl
  | m :: l, aT, aD => by
    rw [List.map_cons, greedyAccept, greedyAccept]
    rw [stripCand_trackIdx, stripCand_detIdx]
    rw [apply_ite (List.map stripCand), List.map_cons]
    rw [greedyAccept_map_stripCand l aT aD,
      greedyAccept_map_stripCand l (m.trackIdx :: aT) (m.detIdx :: aD)]

theorem applyMatch_stripCand (m : MatchCand) :
    applyMatch (stripCand m) = stripColor (applyMatch m) := rfl

theorem acceptedMatches_congr {t1 t2 : ObjectTracker}
    (dets : List DetectedObject) (hthr : t1.iouThreshold = t2.iouThreshold)
    (htr : t1.tracks.map stripColor = t2.tracks.map stripColor) :
    (t1.acceptedMatches dets).map stripCand =
      (t2.acceptedMatches dets).map stripCand := by
  unfold ObjectTracker.acceptedMatches ObjectTracker.sortedMatches
  rw [← greedyAccept_map_stripCand, ← greedyAccept_map_stripCand,
    ← insertionSort_map_stripCand, ← insertionSort_map_stripCand,
    candidateMatches_congr dets hthr htr]

theorem assignedTrackIdxs_congr {t1 t2 : ObjectTracker}
    (dets : List DetectedObject) (hthr : t1.iouThreshold = t2.iouThreshold)
    (htr : t1.tracks.map stripColor = t2.tracks.map stripColor) :
    t1.assignedTrackIdxs dets = t2.assignedTrackIdxs dets := by
  unfold ObjectTracker.assignedTrackIdxs
  have h1 : ∀ A : List MatchCand,
      A.map (·.trackIdx) = (A.map stripCand).map (·.trackIdx) := by
    intro A
    rw [List.map_map]
    rfl
  rw [h1, acceptedMatches_congr dets hthr htr, ← h1]

theorem assignedDetIdxs_congr {t1 t2 : ObjectTracker}
    (dets : List DetectedObject) (hthr : t1.iouThreshold = t2.iouThreshold)
    (htr : t1.tracks.map stripColor = t2.tracks.map stripColor) :
    t1.assignedDetIdxs dets = t2.assignedDetIdxs dets := by
  unfold ObjectTracker.assignedDetIdxs
  have h1 : ∀ A : List MatchCand,
      A.map (·.detIdx) = (A.map stripCand).map (·.detIdx) := by
    intro A
    rw [List.map_map]
    rfl
  rw [h1, acceptedMatches_congr dets hthr htr, ← h1]

theorem predictAll_congr {t1 t2 : ObjectTracker}
    (htr : t1.tracks.map stripColor = t2.tracks.map stripColor) :
    t1.predictAll.map stripColor = t2.predictAll.map stripColor := by
  have hcomp : stripColor ∘ predictTrack = predictTrack ∘ stripColor := rfl
  unfold ObjectTracker.predictAll
  rw [List.map_map, List.map_map, hcomp, ← List.map_map, ← List.map_map, htr]

theorem agedInner_congr (asg : List ℕ) (maxM : ℕ) :
    ∀ (l1 l2 : List TrackedObject) (n : ℕ),
      l1.map stripColor = l2.map stripColor →
      (((l1.enumFrom n).filterMap fun p =>
        if p.1 ∈ asg then none else ageOnly maxM p.2).map stripColor) =
      (((l2.enumFrom n).filterMap fun p =>
        if p.1 ∈ asg then none else ageOnly maxM p.2).map stripColor)
  | [], [], _, _ => rfl
  | [], b :: l2, n, h => by simp at h
  | a :: l1, [], n, h => by simp at h
  | a :: l1, b :: l2, n, h => by
    rw [List.map_cons, List.map_cons] at h
    have h1 : stripColor a = stripColor b := List.head_eq_of_cons_eq h
    have h2 : l1.map stripColor = l2.map stripColor := List.tail_eq_of_cons_eq h
    have hmf : a.missingFrames = b.missingFrames := stripColor_missingFrames_eq h1
    rw [List.enumFrom_cons, List.enumFrom_cons]
    by_cases hn : n ∈ asg
    · rw [List.filterMap_cons_none (by
        show (if n ∈ asg then none else ageOnly maxM a) = none
        rw [if_pos hn]),
        List.filterMap_cons_none (by
        show (if n ∈ asg then none else ageOnly maxM b) = none
        rw [if_pos hn])]
      exact agedInner_congr asg maxM l1 l2 (n + 1) h2
    · by_cases hc : a.missingFrames + 1 < maxM
      · rw [List.filterMap_cons_some (by
          show (if n ∈ asg then none else ageOnly maxM a) =
            some ({ a with missingFrames := a.missingFrames + 1 } : TrackedObject)
          rw [if_neg hn]
          simp only [ageOnly]
          rw [if_pos hc]),
          List.filterMap_cons_some (by
          show (if n ∈ asg then none else ageOnly maxM b) =
            some ({ b with missingFrames := b.missingFrames + 1 } : TrackedObject)
          rw [if_neg hn]
          simp only [ageOnly]
          rw [if_pos (hmf ▸ hc)]),
          List.map_cons, List.map_cons,
          agedInner_congr asg maxM l1 l2 (n + 1) h2]
        congr 1
        show ({ stripColor a with missingFrames := a.missingFrames + 1 } :
            TrackedObject) =
          { stripColor b with missingFrames := b.missingFrames + 1 }
        rw [h1, hmf]
      · rw [List.filterMap_cons_none (by
          show (if n ∈ asg then none else ageOnly maxM a) = none
          rw [if_neg hn]
          simp only [ageOnly]
          rw [if_neg hc]),
          List.filterMap_cons_none (by
          show (if n ∈ asg then none else ageOnly maxM b) = none
          rw [if_neg hn]
          simp only [ageOnly]
          rw [if_neg (hmf ▸ hc)])]
        exact agedInner_congr asg maxM l1 l2 (n + 1) h2

theorem agedTracks_congr {t1 t2 : ObjectTracker} (dets : List DetectedObject)
    (hmax : t1.maxMissingFrames = t2.maxMissingFrames)
    (hthr : t1.iouThreshold = t2.iouThreshold)
    (htr : t1.tracks.map stripColor = t2.tracks.map stripColor) :
    (t1.agedTracks dets).map stripColor = (t2.agedTracks dets).map stripColor := by
  unfold ObjectTracker.agedTracks
  rw [assignedTrackIdxs_congr dets hthr htr, hmax]
  exact agedInner_congr _ _ t1.predictAll t2.predictAll 0 (predictAll_congr htr)

theorem unmatchedDetections_congr {t1 t2 : ObjectTracker}
    (dets : List DetectedObject) (hthr : t1.iouThreshold = t2.iouThreshold)
    (htr : t1.tracks.map stripColor = t2.tracks.map stripColor) :
    t1.unmatchedDetections dets = t2.unmatchedDetections dets := by
  unfold ObjectTracker.unmatchedDetections
  rw [assignedDetIdxs_congr dets hthr htr]

theorem newTracks_congr {t1 t2 : ObjectTracker} (dets : List DetectedObject)
    (c1 c2 : ℕ → String) (hnext : t1.nextId = t2.nextId)
    (hthr : t1.iouThreshold = t2.iouThreshold)
    (htr : t1.tracks.map stripColor = t2.tracks.map stripColor) :
    (t1.newTracks dets c1).map stripColor =
      (t2.newTracks dets c2).map stripColor := by
  unfold ObjectTracker.newTracks
  rw [unmatchedDetections_congr dets hthr htr, hnext, List.map_map, List.map_map]
  rfl

theorem update_fst_maxMissing (t : ObjectTracker)
    (detections : List DetectedObject) (c : ℕ → String) :
    (t.update detections c).1.maxMissingFrames = t.maxMissingFrames := rfl

theorem update_fst_iouThr (t : ObjectTracker)
    (detections : List DetectedObject) (c : ℕ → String) :
    (t.update detections c).1.iouThreshold = t.iouThreshold := rfl

theorem update_congr {t1 t2 : ObjectTracker}
    (hnext : t1.nextId = t2.nextId)
    (hmax : t1.maxMissingFrames = t2.maxMissingFrames)
    (hthr : t1.iouThreshold = t2.iouThreshold)
    (htr : t1.tracks.map stripColor = t2.tracks.map stripColor)
    (dets : List DetectedObject) (c1 c2 : ℕ → String) :
    (t1.update dets c1).1.nextId = (t2.update dets c2).1.nextId ∧
    (t1.update dets c1).1.maxMissingFrames =
      (t2.update dets c2).1.maxMissingFrames ∧
    (t1.update dets c1).1.iouThreshold = (t2.update dets c2).1.iouThreshold ∧
    (t1.update dets c1).1.tracks.map stripColor =
      (t2.update dets c2).1.tracks.map stripColor ∧
    (t1.update dets c1).2.map stripColor =
      (t2.update dets c2).2.map stripColor := by
  have hmatched : ((t1.acceptedMatches dets).map applyMatch).map stripColor =
      ((t2.acceptedMatches dets).map applyMatch).map stripColor := by
    have hA := acceptedMatches_congr dets hthr htr
    calc ((t1.acceptedMatches dets).map applyMatch).map stripColor
        = ((t1.acceptedMatches dets).map stripCand).map applyMatch := by
          rw [List.map_map, List.map_map]
          rfl
      _ = ((t2.acceptedMatches dets).map stripCand).map applyMatch := by rw [hA]
      _ = ((t2.acceptedMatches dets).map applyMatch).map stripColor := by
          rw [List.map_map, List.map_map]
          rfl
  have haged := agedTracks_congr dets hmax hthr htr
  have hnewT := newTracks_congr dets c1 c2 hnext hthr htr
  have hunm := unmatchedDetections_congr dets hthr htr
  have houts : (t1.update dets c1).2.map stripColor =
      (t2.update dets c2).2.map stripColor := by
    rw [update_snd, update_snd, List.map_append, List.map_append,
      List.map_append, List.map_append, hmatched, haged, hnewT]
  refine ⟨?_, ?_, ?_, ?_, houts⟩
  · rw [update_fst_nextId, update_fst_nextId, hnext, hunm]
  · rw [update_fst_maxMissing, update_fst_maxMissing, hmax]
  · rw [update_fst_iouThr, update_fst_iouThr, hthr]
  · rw [update_fst_tracks, update_fst_tracks, List.map_append, List.map_append,
      List.map_append, List.map_append, hmatched, haged, hnewT]

theorem runOutputs_congr : ∀ (frames : List (List DetectedObject))
    (t1 t2 : ObjectTracker), t1.nextId = t2.nextId →
    t1.maxMissingFrames = t2.maxMissingFrames →
    t1.iouThreshold = t2.iouThreshold →
    t1.tracks.map stripColor = t2.tracks.map stripColor →
    ∀ (c1 c2 : ℕ → ℕ → String),
      (runOutputs t1 frames c1).map (List.map stripColor) =
        (runOutputs t2 frames c2).map (List.map stripColor)
  | [], _, _, _, _, _, _, _, _ => rfl
  | dets :: frames, t1, t2, hnext, hmax, hthr, htr, c1, c2 => by
    obtain ⟨h1, h2, h3, h4, h5⟩ := update_congr hnext hmax hthr htr dets (c1 0) (c2 0)
    rw [runOutputs, runOutputs, List.map_cons, List.map_cons, h5,
      runOutputs_congr frames _ _ h1 h2 h3 h4 (fun i => c1 (i + 1))
        (fun i => c2 (i + 1))]

/-- C8: two separately constructed default trackers fed the same
sequence of detection lists produce, at every call, outputs equal in
id, box, label, score, velocity and missingStreak for every returned
track in the same order — whatever colors the random source yields,
only the cosmetic color may differ. -/
theorem C8_determinism_up_to_color (frames : List (List DetectedObject))
    (c1 c2 : ℕ → ℕ → String) :
    (runOutputs (mkTracker 30 (1/4)) frames c1).map (List.map stripColor) =
      (runOutputs (mkTracker 30 (1/4)) frames c2).map (List.map stripColor) :=
  runOutputs_congr frames _ _ rfl rfl rfl rfl c1 c2
